import Mathlib

/-!
Verification of the core of the `commands` library: the tri-state `Result`
value, the dedup invoker and command hooks, the observable bridge
(`useObservable`), and the promise-to-observable adapter
(`fromCancellablePromise`). Each definition is a shallow embedding of the
corresponding source function; stateful hooks are embedded as explicit state
machines with event traces.
-/

namespace Commands

/-! ## The Result class (src/unnamed/part_004, final revision)

`Result<T>` is a class hierarchy with subclasses `OkValue`, `ErrorValue`,
`PendingValue`; the error payload has type `any`, modelled by a parameter `E`.
The three subclasses are the three constructors; the virtual-method dispatch
of the subclasses becomes a match on the constructor. -/

inductive Result (E T : Type) where
  | pending : Result E T
  | ok (val : T) : Result E T
  | err (e : E) : Result E T
deriving DecidableEq

/-- `isOk()`: true exactly for the `OkValue` subclass. -/
def Result.isOk {E T : Type} : Result E T → Bool
  | .ok _ => true
  | _ => false

/-- `isErr()`: true exactly for the `ErrorValue` subclass. -/
def Result.isErr {E T : Type} : Result E T → Bool
  | .err _ => true
  | _ => false

/-- `isPending()`: true exactly for the `PendingValue` subclass. -/
def Result.isPending {E T : Type} : Result E T → Bool
  | .pending => true
  | _ => false

/-- The instance accessor `ok()`: the value if Ok, else `undefined` (`none`). -/
def Result.ok? {E T : Type} : Result E T → Option T
  | .ok v => some v
  | _ => none

/-- The instance accessor `err()`: the error if Error, else `undefined`. -/
def Result.err? {E T : Type} : Result E T → Option E
  | .err e => some e
  | _ => none

/-- The error thrown by `expect`/`expectErr` on a wrong tag
(`new Error('Value is not an Ok')` in the source; the spec calls it a
`PreconditionError`). -/
structure PreconditionError where
  message : String
deriving DecidableEq

/-- `expect()`: returns the Ok value, throws a precondition error otherwise.
Throwing is embedded as `Except.error`. -/
def Result.expect {E T : Type} : Result E T → Except PreconditionError T
  | .ok v => Except.ok v
  | _ => Except.error (PreconditionError.mk "Value is not an Ok")

/-- `expectErr()`: returns the Error value, throws a precondition error
otherwise. -/
def Result.expectErr {E T : Type} : Result E T → Except PreconditionError E
  | .err e => Except.ok e
  | _ => Except.error (PreconditionError.mk "Value is not an Error")

/-- `map(fn)`: the source branches on `isErr` (pass error through), then
`isPending` (pass pending through), else wraps `fn` of the Ok value. -/
def Result.map {E T N : Type} (fn : T → N) : Result E T → Result E N
  | .err e => Result.err e
  | .pending => Result.pending
  | .ok v => Result.ok (fn v)

/-- `map(fn)` when the callback itself may throw (`X` is the thrown exception
type). The source does not wrap the call to `fn` in any try/catch, so a throw
inside `fn` escapes `map` to its caller; on the Error and Pending branches
`fn` is never called, so no exception can arise there. -/
def Result.mapExn {E T N X : Type} (fn : T → Except X N) :
    Result E T → Except X (Result E N)
  | .err e => Except.ok (Result.err e)
  | .pending => Except.ok Result.pending
  | .ok v =>
    match fn v with
    | Except.ok n => Except.ok (Result.ok n)
    | Except.error exn => Except.error exn

/-! JavaScript value universe, used where the source relies on dynamic
truthiness (`ret ? ops.ok : ops.null ?? ops.ok`) and strict equality
(`x === undefined`). -/

/-- A JavaScript value. Objects carry an identity for strict equality. -/
inductive JsVal where
  | vnull
  | vundefined
  | vbool (b : Bool)
  | vnum (n : Int)
  | vstr (s : String)
  | vobj (id : Nat)
deriving DecidableEq

/-- JavaScript truthiness of a value: `false`, `0`, the empty string, `null`
and `undefined` are falsy; every object is truthy. -/
def truthy : JsVal → Bool
  | .vnull => false
  | .vundefined => false
  | .vbool b => b
  | .vnum n => n != 0
  | .vstr s => s != ""
  | .vobj _ => true

/-- The handler record taken by `mapOrElse`; every handler is optional. -/
structure MapOrElseOps (E N : Type) where
  err : Option (E → N)
  pending : Option (Unit → N)
  ok : Option (JsVal → N)
  null : Option (JsVal → N)

/-- `mapOrElse(ops)`: dispatch on the tag; on the Ok branch the source
computes `const fn = ret ? ops.ok : (ops.null ?? ops.ok)` and returns
`fn ? fn(ret) : undefined` (`undefined` is `none`). -/
def Result.mapOrElse {E N : Type} (r : Result E JsVal) (ops : MapOrElseOps E N) :
    Option N :=
  match r with
  | .pending =>
    match ops.pending with
    | some f => some (f ())
    | none => none
  | .err e =>
    match ops.err with
    | some f => some (f e)
    | none => none
  | .ok v =>
    let fn := if truthy v then ops.ok else
      match ops.null with
      | some f => some f
      | none => ops.ok
    match fn with
    | some f => some (f v)
    | none => none

/-- `isUndefined()`: implemented in the source via `mapOrElse` with handlers
`err: () => false`, `pending: () => false`, `ok: (x) => x === undefined`
and no `null` handler. -/
def Result.isUndefined {E : Type} (r : Result E JsVal) : Option Bool :=
  r.mapOrElse
    (MapOrElseOps.mk (some (fun _ => false)) (some (fun _ => false))
      (some (fun x => x == JsVal.vundefined)) none)

/-! ## Dedup invoker (useAsyncCallbackDedup, final revision of
src/src/__tests__/from-cancellable-promise.ts)

The hook keeps a ref `cur` holding the currently in-flight promise. The
callback: returns `null` when `cur.current` is set; returns `null` when the
component is unmounted; otherwise calls `block()`, stores the promise in
`cur.current`, awaits it, and on settlement (success or failure) clears
`cur.current` only when it still refers to that exact promise.

Promises are identified by identity; the embedding names them with fresh
natural numbers drawn from a counter. `inFlight` lists the identities of
executions of `block` that have started and not yet settled. -/

structure DedupState where
  /-- `cur.current`: the tracked in-flight promise, if any. -/
  slot : Option Nat
  /-- Identities of executions of `block` started and not yet settled. -/
  inFlight : List Nat
  /-- Fresh-identity counter for promises. -/
  nextId : Nat
  /-- `mounted.current` of the owning component. -/
  mounted : Bool
deriving DecidableEq

/-- The hook state at first activation: no tracked promise, nothing running,
component mounted. -/
def dedupInit : DedupState := DedupState.mk none [] 0 true

/-- One call of the deduplicating callback. Returns the new state and the
identity of the execution it started (`none` embeds returning `null`). -/
def dedupInvoke (s : DedupState) : DedupState × Option Nat :=
  match s.slot with
  | some _ => (s, none)
  | none =>
    if !s.mounted then (s, none)
    else
      (DedupState.mk (some s.nextId) (s.nextId :: s.inFlight) (s.nextId + 1)
        s.mounted,
       some s.nextId)

/-- Settlement (fulfilment or rejection) of the execution with identity
`id`: the execution leaves the in-flight set, and `cur.current` is cleared
only when it still holds that exact promise. -/
def dedupSettle (s : DedupState) (id : Nat) : DedupState :=
  DedupState.mk (if s.slot = some id then none else s.slot)
    (s.inFlight.erase id) s.nextId s.mounted

/-- Events observable by one invoker instance. -/
inductive DedupEvent where
  | invokeEvt : DedupEvent
  | settleEvt (id : Nat) : DedupEvent
  | unmountEvt : DedupEvent
deriving DecidableEq

/-- The state transition of each event. -/
def dedupStep (s : DedupState) : DedupEvent → DedupState
  | .invokeEvt => (dedupInvoke s).1
  | .settleEvt id => dedupSettle s id
  | .unmountEvt => DedupState.mk s.slot s.inFlight s.nextId false

/-- Event validity: a settlement must settle a started, not-yet-settled
execution (a promise settles exactly once); calls and unmount may happen at
any time. -/
def dedupValidB (s : DedupState) : DedupEvent → Bool
  | .settleEvt id => s.inFlight.contains id
  | _ => true

/-- Validity of an event trace from a state. -/
def dedupValidTrace : DedupState → List DedupEvent → Bool
  | _, [] => true
  | s, e :: tr => dedupValidB s e && dedupValidTrace (dedupStep s e) tr

/-- Execution of an event trace. -/
def dedupExec : DedupState → List DedupEvent → DedupState
  | s, [] => s
  | s, e :: tr => dedupExec (dedupStep s e) tr

/-- The single-writer invariant of the in-flight slot: the slot tracks
exactly the running executions. -/
def DedupInv (s : DedupState) : Prop :=
  match s.slot with
  | none => s.inFlight = []
  | some id => s.inFlight = [id]

/-! ## Command (useCommand, final revision of
src/src/__tests__/from-cancellable-promise.ts)

`useCommand` keeps `current : Result<T | null>` in a state cell, initially
`Result.ok(null)` (`null` is `none`), and wraps its block with the dedup
invoker. `reset` writes `Result.ok(null)` when still mounted and touches
nothing else. -/

/-- The initial `currentResult` of a command: `Result.ok(null)`. -/
def commandInitial {E T : Type} : Result E (Option T) := Result.ok none

/-- `reset()`: `if (mounted.current) setCurrent(Result.ok(null))`. -/
def commandReset {E T : Type} (mounted : Bool) (cur : Result E (Option T)) :
    Result E (Option T) :=
  if mounted then Result.ok none else cur

/-- `reset()` acting on the full hook state (dedup slot plus result cell):
it only writes the cell, never the dedup slot, so an in-flight invocation is
not cancelled. -/
def commandResetFull {E T : Type}
    (st : DedupState × Result E (Option T)) :
    DedupState × Result E (Option T) :=
  (st.1, commandReset st.1.mounted st.2)

/-- One run of the async block that `useCommand` hands to the dedup invoker:
`isCurrentInvocation` starts true (the `finally` clears it only after both
guarded writes have run); if mounted, write `Result.pending`; await the
block; on success write `Result.ok(ret)` when still current and mounted and
return `ret`; on failure write `Result.err(e)` under the same guard and
rethrow. Returns the ordered list of writes to `currentResult` and the
settlement of the block's promise. `m1` is `mounted.current` at the start,
`m2` at settlement time. -/
def commandBlockRun {E T : Type} (m1 m2 : Bool) (outcome : Except E T) :
    List (Result E (Option T)) × Except E T :=
  let isCurrentInvocation := true
  let w1 : List (Result E (Option T)) :=
    if m1 then [Result.pending] else []
  match outcome with
  | .ok ret =>
    (w1 ++ (if isCurrentInvocation && m2 then [Result.ok (some ret)] else []),
     Except.ok ret)
  | .error exn =>
    (w1 ++ (if isCurrentInvocation && m2 then [Result.err exn] else []),
     Except.error exn)

/-- One call of the command's `invoke`: the dedup layer returns `null`
when an invocation is in flight or the component is unmounted; otherwise it
runs the block above, and the promise handed back to the caller settles the
way the block did (rejections are rethrown to the caller). -/
def commandInvoke {E T : Type} (slotBusy mounted m2 : Bool)
    (outcome : Except E T) :
    List (Result E (Option T)) × Except E (Option T) :=
  if slotBusy then ([], Except.ok none)
  else if !mounted then ([], Except.ok none)
  else
    match commandBlockRun mounted m2 outcome with
    | (w, Except.ok v) => (w, Except.ok (some v))
    | (w, Except.error exn) => (w, Except.error exn)

/-! ## Observable bridge (useObservable, final revision of src/src/promise.ts)

One activation (dependency epoch) of the hook. The effect closure holds the
mutable locals `set`, `done`, `isCurrentSubscription`, reads the shared
`mounted` ref, and captures the render-time value of the state cell `ret`
(which stays whatever it was when the effect ran — the closure variable is
never reassigned). `setRet` writes the live state cell. The `complete`
handler does not write the cell; it schedules a single microtask
(`Promise.resolve().then`) that performs the guarded empty-completion
check. -/

/-- Contents of the Result cell as the bridge can write it: pending, a
value, a stream failure, or the empty-completion error
(`new Error('Observable must have at least one element')`, which the spec
paraphrases as "stream completed with no value"). -/
inductive ObsCell (T E : Type) where
  | pend : ObsCell T E
  | okc (x : T) : ObsCell T E
  | errc (e : E) : ObsCell T E
  | emptyErr : ObsCell T E
deriving DecidableEq

/-- `isPending()` on a cell value. -/
def isPendingCell {T E : Type} : ObsCell T E → Bool
  | .pend => true
  | _ => false

/-- The observable bridge state for one subscription epoch. -/
structure ObsState (T E : Type) where
  /-- The current value of the Result cell. -/
  cell : ObsCell T E
  /-- The render-time `ret` captured by the effect closure. -/
  retAtEffect : ObsCell T E
  /-- The local `set` flag: some item or failure was delivered. -/
  set : Bool
  /-- The local `done` flag. -/
  done : Bool
  /-- The local `isCurrentSubscription` liveness flag. -/
  isCurrent : Bool
  /-- The shared `mounted.current` ref. -/
  mounted : Bool
  /-- The empty-completion microtask has been scheduled and not yet run. -/
  deferredScheduled : Bool
  /-- Ghost flag: the source stream has delivered its terminal event. -/
  srcDone : Bool
deriving DecidableEq

/-- The epoch state right after subscribing on first activation: cell is
Pending (the initial `useState`), the captured `ret` is that same Pending,
flags clear, subscription live, component mounted. -/
def obsInit {T E : Type} : ObsState T E :=
  ObsState.mk ObsCell.pend ObsCell.pend false false true true false false

/-- Events of one epoch: stream emission, stream failure, stream
completion, the deferred empty-completion microtask, effect cleanup
(teardown), and unmount. -/
inductive ObsEvent (T E : Type) where
  | nextEvt (x : T) : ObsEvent T E
  | errorEvt (e : E) : ObsEvent T E
  | completeEvt : ObsEvent T E
  | runDeferred : ObsEvent T E
  | teardown : ObsEvent T E
  | unmountEvt : ObsEvent T E
deriving DecidableEq

/-- The transition of each event, read off the subscription handlers:
`next` and `error` return early unless live and mounted, then set `set`
(and `done` for errors) and write the cell; `complete` returns early unless
live, sets `done` and schedules the microtask; the microtask writes the
empty-completion error only if still live, still mounted, the captured
`ret` is pending, and no item was ever delivered; teardown clears the
liveness flag; unmount clears the mounted ref. -/
def obsStep {T E : Type} (s : ObsState T E) : ObsEvent T E → ObsState T E
  | .nextEvt x =>
    if !s.isCurrent || !s.mounted then s
    else { s with set := true, cell := ObsCell.okc x }
  | .errorEvt e =>
    if !s.isCurrent || !s.mounted then { s with srcDone := true }
    else
      { s with srcDone := true, set := true, done := true,
               cell := ObsCell.errc e }
  | .completeEvt =>
    if !s.isCurrent then { s with srcDone := true }
    else { s with srcDone := true, done := true, deferredScheduled := true }
  | .runDeferred =>
    if s.isCurrent && s.mounted && isPendingCell s.retAtEffect && !s.set then
      { s with deferredScheduled := false, cell := ObsCell.emptyErr }
    else { s with deferredScheduled := false }
  | .teardown => { s with isCurrent := false }
  | .unmountEvt => { s with mounted := false }

/-- Event validity: the source delivers `next`, `error` and `complete` only
before its terminal event (a stream terminates at most once), and the
deferred check runs only when its microtask has been scheduled and has not
run yet; teardown and unmount can happen at any time. -/
def obsValidB {T E : Type} (s : ObsState T E) : ObsEvent T E → Bool
  | .nextEvt _ => !s.srcDone
  | .errorEvt _ => !s.srcDone
  | .completeEvt => !s.srcDone
  | .runDeferred => s.deferredScheduled
  | .teardown => true
  | .unmountEvt => true

/-- Validity of an event trace from a state. -/
def obsValidTrace {T E : Type} : ObsState T E → List (ObsEvent T E) → Bool
  | _, [] => true
  | s, e :: tr => obsValidB s e && obsValidTrace (obsStep s e) tr

/-- Execution of an event trace. -/
def obsExec {T E : Type} : ObsState T E → List (ObsEvent T E) → ObsState T E
  | s, [] => s
  | s, e :: tr => obsExec (obsStep s e) tr

/-- The epoch invariant: while no item or failure has been delivered the
cell is Pending (or already holds the empty-completion error); before the
source terminates, no microtask is scheduled and the empty-completion error
cannot be in the cell; a scheduled microtask implies the cell does not yet
hold the empty-completion error. -/
def ObsInv {T E : Type} (s : ObsState T E) : Prop :=
  (s.set = false → s.cell = ObsCell.pend ∨ s.cell = ObsCell.emptyErr)
  ∧ (s.srcDone = false →
      s.deferredScheduled = false ∧ s.cell ≠ ObsCell.emptyErr)
  ∧ (s.deferredScheduled = true → s.cell ≠ ObsCell.emptyErr)

/-- The last element of a list, with a default for the empty list. -/
def lastD {α : Type} : List α → α → α
  | [], d => d
  | a :: l, _ => lastD l a

/-- The trace in which the stream emits `x :: xs` and completes, followed by
the deferred empty-completion microtask. -/
def emitThenComplete {T E : Type} (x : T) (xs : List T) :
    List (ObsEvent T E) :=
  ((x :: xs).map ObsEvent.nextEvt)
    ++ [ObsEvent.completeEvt, ObsEvent.runDeferred]

/-! ## Promise-to-observable adapter (fromCancellablePromise,
src/src/promise.ts)

On subscribe, a fresh `done = { cancelled: false }` flag is created; the
teardown registered with `subj.add` sets it true. The fulfilment handler —
when not already cancelled — sets the flag true and emits the value then
complete; the rejection handler (and the catch around the synchronous
portion of `block`) — when not already cancelled — sets the flag true and
emits the error. -/

/-- Observer events delivered by the adapter. -/
inductive FcpOut (T E : Type) where
  | nextO (x : T) : FcpOut T E
  | completeO : FcpOut T E
  | errorO (e : E) : FcpOut T E
deriving DecidableEq

/-- The adapter state: the cancellation flag and the events delivered to the
observer so far, in order. -/
structure FcpState (T E : Type) where
  cancelled : Bool
  delivered : List (FcpOut T E)
deriving DecidableEq

/-- State right after subscribing: not cancelled, nothing delivered. -/
def fcpInit {T E : Type} : FcpState T E := FcpState.mk false []

/-- Unsubscription: the registered teardown sets `done.cancelled = true`. -/
def fcpUnsub {T E : Type} (s : FcpState T E) : FcpState T E :=
  FcpState.mk true s.delivered

/-- Fulfilment of the promise with `x`: if not already cancelled, set the
flag and emit the value then complete. -/
def fcpResolve {T E : Type} (s : FcpState T E) (x : T) : FcpState T E :=
  if s.cancelled then s
  else FcpState.mk true (s.delivered ++ [FcpOut.nextO x, FcpOut.completeO])

/-- Rejection of the promise with `e` (also the synchronous-throw path): if
not already cancelled, set the flag and emit the error. -/
def fcpReject {T E : Type} (s : FcpState T E) (e : E) : FcpState T E :=
  if s.cancelled then s
  else FcpState.mk true (s.delivered ++ [FcpOut.errorO e])

/-- Actions on the adapter. -/
inductive FcpAct (T E : Type) where
  | unsubA : FcpAct T E
  | resolveA (x : T) : FcpAct T E
  | rejectA (e : E) : FcpAct T E
deriving DecidableEq

/-- The state transition of each action. -/
def fcpStep {T E : Type} (s : FcpState T E) : FcpAct T E → FcpState T E
  | .unsubA => fcpUnsub s
  | .resolveA x => fcpResolve s x
  | .rejectA e => fcpReject s e

/-- Execution of a sequence of actions. -/
def fcpExec {T E : Type} : FcpState T E → List (FcpAct T E) → FcpState T E
  | s, [] => s
  | s, a :: acts => fcpExec (fcpStep s a) acts

/-! ## Theorems for the Result claims -/

/-- C7: `ok(v).map(f)` equals `ok(f(v))`; `err(e).map(f)` is an Error with
the payload `e` unchanged and `f` not invoked (even a throwing callback
produces no exception there); `pending().map(f)` is Pending with `f` not
invoked; and when `f` itself throws, `map` propagates that exception to the
caller instead of catching it (the result of `map` on Ok is exactly the
result of the callback, mapped into Ok on success). -/
theorem result_map_c7 {E T N X : Type} (v : T) (e : E) (f : T → N)
    (g : T → Except X N) :
    Result.map f (Result.ok v : Result E T) = Result.ok (f v)
    ∧ Result.map f (Result.err e : Result E T) = Result.err e
    ∧ Result.map f (Result.pending : Result E T) = Result.pending
    ∧ Result.mapExn g (Result.err e : Result E T) = Except.ok (Result.err e)
    ∧ Result.mapExn g (Result.pending : Result E T) = Except.ok Result.pending
    ∧ Result.mapExn g (Result.ok v : Result E T) = (g v).map Result.ok := by
  refine ⟨rfl, rfl, rfl, rfl, rfl, ?_⟩
  cases hg : g v <;> simp [Result.mapExn, hg, Except.map]

/-- C8: `mapOrElse` dispatches Pending to the `pending` handler, Error to the
`err` handler with the error; on Ok with a falsy payload (including the
number 0 and the empty string) the `null` handler is preferred over `ok`
when supplied, otherwise `ok` is used; every omitted handler yields
`undefined` (`none`) for its branch without throwing. -/
theorem result_mapOrElse_c8 {E N : Type} (e : E) (v : JsVal)
    (fe : E → N) (fp : Unit → N) (fo : JsVal → N) (fn : JsVal → N) :
    Result.mapOrElse (Result.pending : Result E JsVal)
        (MapOrElseOps.mk (some fe) (some fp) (some fo) (some fn)) = some (fp ())
    ∧ Result.mapOrElse (Result.pending : Result E JsVal)
        (MapOrElseOps.mk none none none none : MapOrElseOps E N) = none
    ∧ Result.mapOrElse (Result.err e : Result E JsVal)
        (MapOrElseOps.mk (some fe) (some fp) (some fo) (some fn)) = some (fe e)
    ∧ Result.mapOrElse (Result.err e : Result E JsVal)
        (MapOrElseOps.mk none (some fp) (some fo) (some fn)
          : MapOrElseOps E N) = none
    ∧ Result.mapOrElse (Result.ok v : Result E JsVal)
        (MapOrElseOps.mk (some fe) (some fp) (some fo) (some fn))
        = some (if truthy v then fo v else fn v)
    ∧ Result.mapOrElse (Result.ok v : Result E JsVal)
        (MapOrElseOps.mk (some fe) (some fp) (some fo) none) = some (fo v)
    ∧ Result.mapOrElse (Result.ok v : Result E JsVal)
        (MapOrElseOps.mk (some fe) (some fp) none none) = none
    ∧ truthy (JsVal.vnum 0) = false
    ∧ truthy (JsVal.vstr "") = false
    ∧ truthy JsVal.vnull = false
    ∧ truthy JsVal.vundefined = false := by
  refine ⟨rfl, rfl, rfl, rfl, ?_, ?_, ?_, rfl, rfl, rfl, rfl⟩ <;>
    cases htv : truthy v <;> simp [Result.mapOrElse, htv]

/-- C9: `ok(v).expect()` returns `v` and `err(e).expectErr()` returns `e`,
neither failing; `expect()` on Error or Pending and `expectErr()` on Ok or
Pending each fail with a `PreconditionError`; and under the precondition
`isOk` (respectively `isErr`) the throwing branch of `expect` (respectively
`expectErr`) is unreachable: a successful value is always produced. -/
theorem result_expect_c9 {E T : Type} (v : T) (e : E) :
    (Result.ok v : Result E T).expect = Except.ok v
    ∧ (Result.err e : Result E T).expectErr = Except.ok e
    ∧ (Result.err e : Result E T).expect
        = Except.error (PreconditionError.mk "Value is not an Ok")
    ∧ (Result.pending : Result E T).expect
        = Except.error (PreconditionError.mk "Value is not an Ok")
    ∧ (Result.ok v : Result E T).expectErr
        = Except.error (PreconditionError.mk "Value is not an Error")
    ∧ (Result.pending : Result E T).expectErr
        = Except.error (PreconditionError.mk "Value is not an Error")
    ∧ (∀ r : Result E T, r.isOk = true → ∃ w, r.expect = Except.ok w)
    ∧ (∀ r : Result E T, r.isErr = true → ∃ w, r.expectErr = Except.ok w) := by
  refine ⟨rfl, rfl, rfl, rfl, rfl, rfl, ?_, ?_⟩
  · intro r hr
    cases r with
    | ok w => exact ⟨w, rfl⟩
    | err _ => simp [Result.isOk] at hr
    | pending => simp [Result.isOk] at hr
  · intro r hr
    cases r with
    | err w => exact ⟨w, rfl⟩
    | ok _ => simp [Result.isErr] at hr
    | pending => simp [Result.isErr] at hr

/-- Witness for C9 at a concrete input: `ok 0` satisfies `isOk`, and
`expect` produces a value there. -/
theorem result_expect_c9_witness :
    ∃ w, (Result.ok (0 : Nat) : Result Nat Nat).expect = Except.ok w :=
  (result_expect_c9 (0 : Nat) (0 : Nat)).2.2.2.2.2.2.1 (Result.ok 0) rfl

/-- C10: `isUndefined()` tests the Ok payload by strict equality with
`undefined`: `ok(v).isUndefined()` is true exactly when `v === undefined`;
in particular `ok(null).isUndefined()` is false, and Error and Pending are
never "undefined". -/
theorem result_isUndefined_c10 {E : Type} (e : E) (v : JsVal) :
    (Result.ok v : Result E JsVal).isUndefined = some (v == JsVal.vundefined)
    ∧ (Result.ok JsVal.vnull : Result E JsVal).isUndefined = some false
    ∧ (Result.ok JsVal.vundefined : Result E JsVal).isUndefined = some true
    ∧ (Result.err e : Result E JsVal).isUndefined = some false
    ∧ (Result.pending : Result E JsVal).isUndefined = some false := by
  refine ⟨?_, ?_, rfl, rfl, rfl⟩ <;>
    first
      | rfl
      | cases htv : truthy v <;>
          simp [Result.isUndefined, Result.mapOrElse, htv]

/-! ## Theorems for the dedup invoker and command claims -/

/-- Every valid event preserves the slot invariant. -/
theorem dedupInv_step (s : DedupState) (e : DedupEvent)
    (hv : dedupValidB s e = true) (hI : DedupInv s) :
    DedupInv (dedupStep s e) := by
  cases e with
  | invokeEvt =>
    cases hslot : s.slot with
    | some p =>
      simpa [dedupStep, dedupInvoke, hslot] using hI
    | none =>
      unfold DedupInv at hI
      rw [hslot] at hI
      by_cases hm : s.mounted
      · simp [dedupStep, dedupInvoke, hslot, hm, DedupInv, hI]
      · simp only [Bool.not_eq_true] at hm
        have hstep : dedupStep s DedupEvent.invokeEvt = s := by
          simp [dedupStep, dedupInvoke, hslot, hm]
        rw [hstep]
        unfold DedupInv
        rw [hslot]
        exact hI
  | settleEvt id =>
    cases hslot : s.slot with
    | none =>
      unfold DedupInv at hI
      rw [hslot] at hI
      simp [dedupValidB, hI] at hv
    | some q =>
      unfold DedupInv at hI
      rw [hslot] at hI
      have hid : id = q := by
        simp [dedupValidB, hI] at hv
        omega
      subst hid
      simp [dedupStep, dedupSettle, hslot, DedupInv, hI, List.erase]
  | unmountEvt =>
    unfold DedupInv at hI ⊢
    simpa [dedupStep] using hI

/-- The slot invariant holds in every state reached by a valid trace. -/
theorem dedupInv_exec (tr : List DedupEvent) :
    ∀ s : DedupState, dedupValidTrace s tr = true → DedupInv s →
      DedupInv (dedupExec s tr) := by
  induction tr with
  | nil => intro s _ hI; exact hI
  | cons e tr ih =>
    intro s hv hI
    rw [dedupValidTrace] at hv
    have hve := (Bool.and_eq_true _ _).mp hv
    exact ih (dedupStep s e) hve.2 (dedupInv_step s e hve.1 hI)

/-- C1 (amended): for every invoker state reachable by a valid event trace,
at most one execution of the wrapped block is in flight; a call made while a
previous invocation has not yet settled returns an absent result (`null`)
immediately, leaving the state untouched and not invoking the block; a call
made with no invocation in flight, provided the component is still mounted,
starts and tracks a fresh execution of the block; a stale settlement never
clears a newer invocation's slot; and settling the tracked promise clears
the slot. -/
theorem dedup_invoker_c1 (tr : List DedupEvent) (s : DedupState)
    (hs : s = dedupExec dedupInit tr)
    (hv : dedupValidTrace dedupInit tr = true) :
    s.inFlight.length ≤ 1
    ∧ (∀ p, s.slot = some p → dedupInvoke s = (s, none))
    ∧ (s.slot = none → s.mounted = true →
        (dedupInvoke s).2 = some s.nextId
        ∧ (dedupInvoke s).1.slot = some s.nextId
        ∧ (dedupInvoke s).1.inFlight = [s.nextId])
    ∧ (∀ id p, s.slot = some p → id ≠ p → (dedupSettle s id).slot = some p)
    ∧ (∀ id, s.slot = some id →
        (dedupSettle s id).slot = none ∧ (dedupSettle s id).inFlight = []) := by
  have hI : DedupInv s := by
    rw [hs]
    exact dedupInv_exec tr dedupInit hv rfl
  refine ⟨?_, ?_, ?_, ?_, ?_⟩
  · unfold DedupInv at hI
    cases hslot : s.slot with
    | none => rw [hslot] at hI; simp [hI]
    | some q => rw [hslot] at hI; simp [hI]
  · intro p hp
    simp [dedupInvoke, hp]
  · intro h1 h2
    have hfl : s.inFlight = [] := by
      unfold DedupInv at hI
      rw [h1] at hI
      exact hI
    simp [dedupInvoke, h1, h2, hfl]
  · intro id p hp hne
    have : ¬(p = id) := fun h => hne h.symm
    simp [dedupSettle, hp, this]
  · intro id hid
    unfold DedupInv at hI
    rw [hid] at hI
    simp [dedupSettle, hid, hI, List.erase]

/-- Witness for C1: after starting an invocation, settling it, and invoking
again, the trace is valid and at most one execution is in flight. -/
theorem dedup_invoker_c1_witness :
    (dedupExec dedupInit
      [DedupEvent.invokeEvt, DedupEvent.settleEvt 0,
       DedupEvent.invokeEvt]).inFlight.length ≤ 1 :=
  (dedup_invoker_c1
    [DedupEvent.invokeEvt, DedupEvent.settleEvt 0, DedupEvent.invokeEvt]
    _ rfl (by decide)).1

/-- Counterexample to C1 as stated: after the component unmounts (a valid
one-event trace), no invocation is in flight (the slot and the in-flight
set are empty), yet a call returns `null` and starts nothing — the state is
unchanged and the block is not invoked — contradicting the claim that
whenever no previous invocation is pending "the block is started and
tracked". -/
theorem dedup_invoker_c1_cex :
    dedupValidTrace dedupInit [DedupEvent.unmountEvt] = true
    ∧ (dedupExec dedupInit [DedupEvent.unmountEvt]).slot = none
    ∧ (dedupExec dedupInit [DedupEvent.unmountEvt]).inFlight = []
    ∧ dedupInvoke (dedupExec dedupInit [DedupEvent.unmountEvt])
        = (dedupExec dedupInit [DedupEvent.unmountEvt], none)
    ∧ (dedupInvoke (dedupExec dedupInit
        [DedupEvent.unmountEvt])).1.inFlight = [] := by
  decide

/-- C2: a call of `invoke` with no invocation in flight and the component
mounted writes `Pending` to `currentResult` first, then `Ok(value)` after a
successful settlement or `Error(failure)` after a failed one — and on
failure the promise returned to the caller rejects with that same failure;
when the component has unmounted by settlement time the second write is
suppressed (each write is gated on being mounted), while the returned
promise still settles the same way. -/
theorem command_invoke_c2 {E T : Type} (v : T) (e : E) :
    commandInvoke false true true (Except.ok v)
      = ([(Result.pending : Result E (Option T)), Result.ok (some v)],
         Except.ok (some v))
    ∧ commandInvoke false true true (Except.error e)
      = ([(Result.pending : Result E (Option T)), Result.err e],
         Except.error e)
    ∧ commandInvoke false true false (Except.ok v)
      = ([(Result.pending : Result E (Option T))], Except.ok (some v))
    ∧ commandInvoke false true false (Except.error e)
      = ([(Result.pending : Result E (Option T))], Except.error e) :=
  ⟨rfl, rfl, rfl, rfl⟩

/-- C6: the initial `currentResult` of a command is `Ok(null)`, not
`Pending`; and `reset()` while mounted writes `Ok(null)` back to the cell
while leaving the dedup slot untouched for every slot contents — whether or
not an invocation is in flight, it is not cancelled. -/
theorem command_c6 {E T : Type} :
    (commandInitial : Result E (Option T)) = Result.ok none
    ∧ (commandInitial : Result E (Option T)) ≠ Result.pending
    ∧ (∀ (ds : DedupState) (cur : Result E (Option T)),
        ds.mounted = true → commandResetFull (ds, cur) = (ds, Result.ok none))
    ∧ (∀ (ds : DedupState) (cur : Result E (Option T)),
        (commandResetFull (ds, cur)).1 = ds) := by
  refine ⟨rfl, by simp [commandInitial], ?_, fun ds cur => rfl⟩
  intro ds cur hm
  simp [commandResetFull, commandReset, hm]

/-- Witness for C6: resetting while an invocation is in flight (busy slot)
clears the cell to `Ok(null)` and leaves the slot exactly as it was. -/
theorem command_c6_witness :
    commandResetFull (DedupState.mk (some 0) [0] 1 true,
        (Result.pending : Result Nat (Option Nat)))
      = (DedupState.mk (some 0) [0] 1 true, Result.ok none) :=
  (@command_c6 Nat Nat).2.2.1 (DedupState.mk (some 0) [0] 1 true)
    Result.pending rfl

/-! ## Theorems for the observable-bridge claims -/

/-- Every valid event preserves the epoch invariant. -/
theorem obsInv_step {T E : Type} (s : ObsState T E) (e : ObsEvent T E)
    (hv : obsValidB s e = true) (hI : ObsInv s) : ObsInv (obsStep s e) := by
  obtain ⟨hA, hB, hC⟩ := hI
  cases e with
  | nextEvt x =>
    have hd : s.srcDone = false := by simpa [obsValidB] using hv
    by_cases hg : (!s.isCurrent || !s.mounted) = true
    · simp only [obsStep, if_pos hg]
      exact ⟨hA, hB, hC⟩
    · simp only [obsStep, if_neg hg]
      refine ⟨by simp, ?_, by simp⟩
      intro _
      exact ⟨(hB hd).1, by simp⟩
  | errorEvt e =>
    have hsch : s.deferredScheduled = false := by
      have hd : s.srcDone = false := by simpa [obsValidB] using hv
      exact (hB hd).1
    by_cases hg : (!s.isCurrent || !s.mounted) = true
    · simp only [obsStep, if_pos hg]
      refine ⟨hA, by simp, ?_⟩
      simpa using hC
    · simp only [obsStep, if_neg hg]
      refine ⟨by simp, by simp, ?_⟩
      simp [hsch]
  | completeEvt =>
    have hd : s.srcDone = false := by simpa [obsValidB] using hv
    by_cases hg : (!s.isCurrent) = true
    · simp only [obsStep, if_pos hg]
      refine ⟨hA, by simp, ?_⟩
      simpa using hC
    · simp only [obsStep, if_neg hg]
      refine ⟨hA, by simp, ?_⟩
      intro _
      exact (hB hd).2
  | runDeferred =>
    by_cases hg :
        (s.isCurrent && s.mounted && isPendingCell s.retAtEffect && !s.set)
          = true
    · have hsch : s.deferredScheduled = true := by
        simpa [obsValidB] using hv
      simp only [obsStep, if_pos hg]
      refine ⟨by simp, ?_, by simp⟩
      intro hd
      have hd' : s.srcDone = false := hd
      have hcontra := (hB hd').1
      rw [hsch] at hcontra
      exact absurd hcontra (by simp)
    · simp only [obsStep, if_neg hg]
      refine ⟨hA, ?_, by simp⟩
      intro hd
      have hd' : s.srcDone = false := hd
      exact ⟨rfl, (hB hd').2⟩
  | teardown =>
    exact ⟨hA, hB, hC⟩
  | unmountEvt =>
    exact ⟨hA, hB, hC⟩

/-- The epoch invariant holds in every state reached by a valid trace. -/
theorem obsInv_exec {T E : Type} (tr : List (ObsEvent T E)) :
    ∀ s : ObsState T E, obsValidTrace s tr = true → ObsInv s →
      ObsInv (obsExec s tr) := by
  induction tr with
  | nil => intro s _ hI; exact hI
  | cons e tr ih =>
    intro s hv hI
    rw [obsValidTrace] at hv
    have hve := (Bool.and_eq_true _ _).mp hv
    exact ih (obsStep s e) hve.2 (obsInv_step s e hve.1 hI)

/-- Executing an appended trace is executing both parts in order. -/
theorem obsExec_append {T E : Type} (l1 l2 : List (ObsEvent T E)) :
    ∀ s : ObsState T E, obsExec s (l1 ++ l2) = obsExec (obsExec s l1) l2 := by
  induction l1 with
  | nil => intro s; rfl
  | cons e l1 ih =>
    intro s
    rw [List.cons_append]
    show obsExec (obsStep s e) (l1 ++ l2) = _
    rw [ih (obsStep s e)]
    rfl

/-- Validity of an appended trace splits into validity of both parts. -/
theorem obsValidTrace_append {T E : Type} (l1 l2 : List (ObsEvent T E)) :
    ∀ s : ObsState T E,
      obsValidTrace s (l1 ++ l2)
        = (obsValidTrace s l1 && obsValidTrace (obsExec s l1) l2) := by
  induction l1 with
  | nil => intro s; simp [obsValidTrace, obsExec]
  | cons e l1 ih =>
    intro s
    rw [List.cons_append]
    show (obsValidB s e && obsValidTrace (obsStep s e) (l1 ++ l2)) = _
    rw [ih (obsStep s e)]
    show _ = (obsValidB s e && obsValidTrace (obsStep s e) l1
      && obsValidTrace (obsExec (obsStep s e) l1) l2)
    rw [Bool.and_assoc]

/-- Delivering the emissions `x :: xs` to a live, mounted epoch is valid (as
long as the source has not terminated), records the last emission in the
cell, sets `set`, and touches no other field. -/
theorem obs_nextChain {T E : Type} (xs : List T) :
    ∀ (x : T) (s : ObsState T E), s.isCurrent = true → s.mounted = true →
      (obsExec s ((x :: xs).map ObsEvent.nextEvt)).cell
          = ObsCell.okc (lastD xs x)
      ∧ (obsExec s ((x :: xs).map ObsEvent.nextEvt)).set = true
      ∧ (obsExec s ((x :: xs).map ObsEvent.nextEvt)).retAtEffect
          = s.retAtEffect
      ∧ (obsExec s ((x :: xs).map ObsEvent.nextEvt)).isCurrent = true
      ∧ (obsExec s ((x :: xs).map ObsEvent.nextEvt)).mounted = true
      ∧ (obsExec s ((x :: xs).map ObsEvent.nextEvt)).deferredScheduled
          = s.deferredScheduled
      ∧ (obsExec s ((x :: xs).map ObsEvent.nextEvt)).srcDone = s.srcDone
      ∧ (s.srcDone = false →
          obsValidTrace s ((x :: xs).map ObsEvent.nextEvt) = true) := by
  induction xs with
  | nil =>
    intro x s hc hm
    refine ⟨?_, ?_, ?_, ?_, ?_, ?_, ?_, ?_⟩ <;>
      simp [obsExec, obsStep, obsValidTrace, obsValidB, hc, hm, lastD]
  | cons y ys ih =>
    intro x s hc hm
    have hstep : obsStep s (ObsEvent.nextEvt x)
        = { s with set := true, cell := ObsCell.okc x } := by
      simp [obsStep, hc, hm]
    have hmap : ((x :: y :: ys).map ObsEvent.nextEvt : List (ObsEvent T E))
        = ObsEvent.nextEvt x :: ((y :: ys).map ObsEvent.nextEvt) := rfl
    have hexec : obsExec s ((x :: y :: ys).map ObsEvent.nextEvt)
        = obsExec { s with set := true, cell := ObsCell.okc x }
            ((y :: ys).map ObsEvent.nextEvt) := by
      rw [hmap, obsExec, hstep]
    have ih2 := ih y { s with set := true, cell := ObsCell.okc x } hc hm
    rw [hexec]
    refine ⟨ih2.1, ih2.2.1, ?_, ih2.2.2.2.1, ih2.2.2.2.2.1, ?_, ?_, ?_⟩
    · exact ih2.2.2.1
    · exact ih2.2.2.2.2.2.1
    · exact ih2.2.2.2.2.2.2.1
    · intro hd
      rw [hmap, obsValidTrace, hstep]
      refine (Bool.and_eq_true _ _).mpr ⟨?_, ?_⟩
      · simp [obsValidB, hd]
      · exact ih2.2.2.2.2.2.2.2 hd

/-- From a live epoch state that has already recorded an item (`set`), the
completion event followed by the deferred microtask is a valid suffix that
leaves the cell unchanged, marks the source terminated, and consumes the
microtask. -/
theorem obs_completeTail {T E : Type} (f : ObsState T E)
    (hcur : f.isCurrent = true) (hset : f.set = true)
    (hsd : f.srcDone = false) :
    obsValidTrace f [ObsEvent.completeEvt, ObsEvent.runDeferred] = true
    ∧ (obsExec f [ObsEvent.completeEvt, ObsEvent.runDeferred]).cell = f.cell
    ∧ (obsExec f [ObsEvent.completeEvt, ObsEvent.runDeferred]).srcDone = true
    ∧ (obsExec f [ObsEvent.completeEvt,
        ObsEvent.runDeferred]).deferredScheduled = false := by
  have h1 : obsStep f ObsEvent.completeEvt
      = { f with srcDone := true, done := true,
                 deferredScheduled := true } := by
    simp [obsStep, hcur]
  have h2 : obsStep ({ f with srcDone := true,
                              done := true,
                              deferredScheduled := true } : ObsState T E)
        ObsEvent.runDeferred
      = { f with srcDone := true, done := true,
                 deferredScheduled := false } := by
    simp [obsStep, hset]
  have hex : obsExec f [ObsEvent.completeEvt, ObsEvent.runDeferred]
      = { f with srcDone := true, done := true,
                 deferredScheduled := false } := by
    show obsStep (obsStep f ObsEvent.completeEvt) ObsEvent.runDeferred = _
    rw [h1, h2]
  refine ⟨?_, ?_, ?_, ?_⟩
  · show (obsValidB f ObsEvent.completeEvt
        && (obsValidB (obsStep f ObsEvent.completeEvt) ObsEvent.runDeferred
            && true)) = true
    rw [h1]
    simp [obsValidB, hsd]
  · rw [hex]
  · rw [hex]
  · rw [hex]

/-- From a state whose source has terminated and whose microtask has been
consumed, no valid event changes the cell. -/
theorem obs_noFurther {T E : Type} (g : ObsState T E)
    (hsd : g.srcDone = true) (hsch : g.deferredScheduled = false) :
    ∀ e : ObsEvent T E, obsValidB g e = true → (obsStep g e).cell = g.cell := by
  intro e hve
  cases e with
  | nextEvt y => simp [obsValidB, hsd] at hve
  | errorEvt e => simp [obsValidB, hsd] at hve
  | completeEvt => simp [obsValidB, hsd] at hve
  | runDeferred => rw [obsValidB, hsch] at hve; exact absurd hve (by simp)
  | teardown => rfl
  | unmountEvt => rfl

/-- C3: in a reachable epoch state, stream completion itself never changes
the cell; the cell can change to the empty-completion error only through
the deferred microtask, and when that microtask does change the cell, the
subscription is still live, the component is still mounted, the cell is
still Pending, and the new value is the empty-completion error; no other
event ever writes the empty-completion error; and a stream that emits at
least one item to the live, mounted epoch and then completes leaves the
cell at its last emitted value, after which no valid event changes the
cell. -/
theorem obs_c3 {T E : Type} (tr : List (ObsEvent T E)) (s : ObsState T E)
    (hs : s = obsExec obsInit tr)
    (hv : obsValidTrace obsInit tr = true) :
    (obsStep s ObsEvent.completeEvt).cell = s.cell
    ∧ ((obsStep s ObsEvent.runDeferred).cell ≠ s.cell →
        s.isCurrent = true ∧ s.mounted = true ∧ s.cell = ObsCell.pend
        ∧ (obsStep s ObsEvent.runDeferred).cell = ObsCell.emptyErr)
    ∧ (∀ e : ObsEvent T E, (obsStep s e).cell = ObsCell.emptyErr →
        s.cell = ObsCell.emptyErr ∨ e = ObsEvent.runDeferred)
    ∧ (∀ (x : T) (xs : List T),
        obsValidTrace (obsInit : ObsState T E) (emitThenComplete x xs) = true
        ∧ (obsExec (obsInit : ObsState T E) (emitThenComplete x xs)).cell
            = ObsCell.okc (lastD xs x)
        ∧ (∀ e : ObsEvent T E,
            obsValidB (obsExec (obsInit : ObsState T E)
              (emitThenComplete x xs)) e = true →
            (obsStep (obsExec (obsInit : ObsState T E)
              (emitThenComplete x xs)) e).cell
              = (obsExec (obsInit : ObsState T E)
                  (emitThenComplete x xs)).cell)) := by
  have hI : ObsInv s := by
    rw [hs]
    exact obsInv_exec tr obsInit hv
      ⟨fun _ => Or.inl rfl, fun _ => ⟨rfl, by simp [obsInit]⟩,
       by simp [obsInit]⟩
  obtain ⟨hA, hB, hC⟩ := hI
  refine ⟨?_, ?_, ?_, ?_⟩
  · by_cases hg : (!s.isCurrent) = true
    · simp [obsStep, hg]
    · simp [obsStep, hg]
  · intro hch
    by_cases hg :
        (s.isCurrent && s.mounted && isPendingCell s.retAtEffect && !s.set)
          = true
    · simp only [obsStep, if_pos hg] at hch ⊢
      simp only [Bool.and_eq_true, Bool.not_eq_true'] at hg
      obtain ⟨⟨⟨hcur, hmnt⟩, _⟩, hset⟩ := hg
      have hcell := hA hset
      cases hcell with
      | inl hp => exact ⟨hcur, hmnt, hp, by simp⟩
      | inr hemp =>
        exfalso
        apply hch
        exact hemp.symm
    · simp only [obsStep, if_neg hg] at hch
      exact absurd rfl hch
  · intro e hcell
    cases e with
    | nextEvt x =>
      by_cases hg : (!s.isCurrent || !s.mounted) = true
      · simp only [obsStep, if_pos hg] at hcell
        exact Or.inl hcell
      · simp only [obsStep, if_neg hg] at hcell
        simp at hcell
    | errorEvt e =>
      by_cases hg : (!s.isCurrent || !s.mounted) = true
      · simp only [obsStep, if_pos hg] at hcell
        exact Or.inl hcell
      · simp only [obsStep, if_neg hg] at hcell
        simp at hcell
    | completeEvt =>
      by_cases hg : (!s.isCurrent) = true
      · simp only [obsStep, if_pos hg] at hcell
        exact Or.inl hcell
      · simp only [obsStep, if_neg hg] at hcell
        exact Or.inl hcell
    | runDeferred => exact Or.inr rfl
    | teardown => exact Or.inl hcell
    | unmountEvt => exact Or.inl hcell
  · intro x xs
    obtain ⟨hcell, hset, hret, hcur, hmnt, hsch, hsd, hvalid⟩ :=
      obs_nextChain xs x (obsInit : ObsState T E) rfl rfl
    have hinit : (obsInit : ObsState T E).srcDone = false := rfl
    have hsd0 : (obsExec (obsInit : ObsState T E)
        ((x :: xs).map ObsEvent.nextEvt)).srcDone = false := hsd.trans hinit
    obtain ⟨htv, htc, htd, hts⟩ := obs_completeTail _ hcur hset hsd0
    have hsplitE : obsExec (obsInit : ObsState T E) (emitThenComplete x xs)
        = obsExec (obsExec (obsInit : ObsState T E)
            ((x :: xs).map ObsEvent.nextEvt))
            [ObsEvent.completeEvt, ObsEvent.runDeferred] := by
      rw [emitThenComplete, obsExec_append]
    have hsplitV :
        obsValidTrace (obsInit : ObsState T E) (emitThenComplete x xs)
          = (obsValidTrace (obsInit : ObsState T E)
              ((x :: xs).map ObsEvent.nextEvt)
             && obsValidTrace (obsExec (obsInit : ObsState T E)
                 ((x :: xs).map ObsEvent.nextEvt))
                 [ObsEvent.completeEvt, ObsEvent.runDeferred]) := by
      rw [emitThenComplete, obsValidTrace_append]
    refine ⟨?_, ?_, ?_⟩
    · rw [hsplitV]
      exact (Bool.and_eq_true _ _).mpr ⟨hvalid hinit, htv⟩
    · rw [hsplitE, htc, hcell]
    · intro e hve
      rw [hsplitE] at hve ⊢
      rw [obs_noFurther _ htd hts e hve]
/-- Witness for C3 at a concrete valid trace: after the stream completes
with no emission (one completion event from the initial state), the
completion step itself leaves the cell unchanged. -/
theorem obs_c3_witness :
    (obsStep (obsExec (@obsInit Nat Nat) [ObsEvent.completeEvt])
        ObsEvent.completeEvt).cell
      = (obsExec (@obsInit Nat Nat) [ObsEvent.completeEvt]).cell :=
  (obs_c3 [ObsEvent.completeEvt] _ rfl (by decide)).1

/-- C4: effect teardown clears the liveness flag, and from any epoch state
whose liveness flag is cleared, no sequence of events of that epoch (late
emissions, failures, the deferred completion check, further teardowns or
unmounts) ever changes the Result cell, and the flag never becomes live
again. -/
theorem obs_c4 {T E : Type} (s : ObsState T E) :
    (obsStep s ObsEvent.teardown).isCurrent = false
    ∧ (s.isCurrent = false → ∀ tr : List (ObsEvent T E),
        (obsExec s tr).cell = s.cell ∧ (obsExec s tr).isCurrent = false) := by
  constructor
  · rfl
  · intro hc tr
    induction tr generalizing s with
    | nil => exact ⟨rfl, hc⟩
    | cons e tr ih =>
      have hstep : (obsStep s e).cell = s.cell
          ∧ (obsStep s e).isCurrent = false := by
        cases e with
        | nextEvt x => simp [obsStep, hc]
        | errorEvt e => simp [obsStep, hc]
        | completeEvt => simp [obsStep, hc]
        | runDeferred => simp [obsStep, hc]
        | teardown => simp [obsStep]
        | unmountEvt => simp [obsStep, hc]
      have ihs := ih (obsStep s e) hstep.2
      rw [obsExec]
      exact ⟨hstep.1.symm ▸ ihs.1, ihs.2⟩

/-- Witness for C4: after teardown of the initial epoch, a late emission, a
late completion and its deferred check leave the cell unchanged. -/
theorem obs_c4_witness :
    (obsExec (obsStep (@obsInit Nat Nat) ObsEvent.teardown)
        [ObsEvent.nextEvt 7, ObsEvent.completeEvt]).cell
      = (obsStep (@obsInit Nat Nat) ObsEvent.teardown).cell :=
  ((obs_c4 (obsStep (@obsInit Nat Nat) ObsEvent.teardown)).2 rfl
    [ObsEvent.nextEvt 7, ObsEvent.completeEvt]).1

/-- C5: unsubscribing sets the cancellation flag; once the flag is true, no
later settlement of the promise (nor anything else) delivers any event to
the observer; fulfilment while not cancelled sets the flag and emits the
value followed by complete; rejection while not cancelled sets the flag and
emits the error. -/
theorem fcp_c5 {T E : Type} (s : FcpState T E) (x : T) (e : E) :
    (fcpUnsub s).cancelled = true
    ∧ (s.cancelled = true → ∀ acts : List (FcpAct T E),
        (fcpExec s acts).delivered = s.delivered)
    ∧ (s.cancelled = false →
        fcpResolve s x
          = FcpState.mk true
              (s.delivered ++ [FcpOut.nextO x, FcpOut.completeO])
        ∧ fcpReject s e
          = FcpState.mk true (s.delivered ++ [FcpOut.errorO e])) := by
  refine ⟨rfl, ?_, ?_⟩
  · intro hcan acts
    induction acts generalizing s with
    | nil => rfl
    | cons a acts ih =>
      have hstep : (fcpStep s a).cancelled = true
          ∧ (fcpStep s a).delivered = s.delivered := by
        cases a with
        | unsubA => exact ⟨rfl, rfl⟩
        | resolveA y => simp [fcpStep, fcpResolve, hcan]
        | rejectA f => simp [fcpStep, fcpReject, hcan]
      have ihs := ih (fcpStep s a) hstep.1
      rw [fcpExec]
      rw [ihs, hstep.2]
  · intro hcan
    constructor
    · simp [fcpResolve, hcan]
    · simp [fcpReject, hcan]

/-- Witness for C5: with the flag already set, a later fulfilment delivers
nothing; and from a fresh subscription a rejection emits exactly the
error. -/
theorem fcp_c5_witness :
    (fcpExec (FcpState.mk true [] : FcpState Nat Nat)
        [FcpAct.resolveA 5]).delivered = [] :=
  ((fcp_c5 (FcpState.mk true [] : FcpState Nat Nat) 0 0).2.1 rfl
    [FcpAct.resolveA 5])

end Commands
